import Mathlib

/-!
# A verification of the `simple-pubsub` event dispatch engine

This file gives a shallow embedding of the core of the repository
(`src/unnamed/part_000`): the event model, the `Machine` stock mutators,
the four built-in subscriber classes, and the `PublishSubscribeService`
(subscription registry, FIFO event queue, synchronous drain loop), and
proves the ordering/idempotence/removal/invariant properties stated in
the specification.

Modelling conventions:
* JS numbers used as stock quantities are modelled as `Int` (all arithmetic
  in the source is integral; `Math.max(0, _)` is `max 0 _`).
* A thrown JS `Error` is modelled as an error value (`ErrMsg`); an operation
  that can throw returns the mutated state *up to the throw point* together
  with `Option ErrMsg`, matching the fact that a JS exception does not roll
  back mutations already performed on `this`.
* JS `Set<ISubscriber>` (insertion-ordered, identity-keyed) is modelled as a
  duplicate-free `List Subscriber` with append-if-absent insertion.
* The shared mutable `machines` array that every subscriber in the source is
  constructed over is carried in the service state; subscribers are
  identified by a stable id (`sid`) plus their class, mirroring JS object
  identity of the four subscriber classes.
* Two instrumentation fields (`trace`, the sequence of handler invocations,
  and `dispatchLog`, the sequence of dequeued events) record the observable
  behaviour of the drain loop; they influence nothing.
-/

/-- `type EnumEvent = "sale" | "refill" | "stock_low" | "stock_ok"`. -/
inductive EnumEvent where
  | sale
  | refill
  | stock_low
  | stock_ok
deriving DecidableEq, Repr

/-- The four `IEvent` implementations: `MachineSaleEvent(_sold, _machineId)`,
`MachineRefillEvent(_refill, _machineId)`, `LowStockWarningEvent(_machineId)`,
`StockLevelOkEvent(_machineId)`. -/
inductive IEvent where
  | machineSale (sold : Int) (machineId : String)
  | machineRefill (refillQty : Int) (machineId : String)
  | lowStockWarning (machineId : String)
  | stockLevelOk (machineId : String)
deriving DecidableEq, Repr

/-- `IEvent.type()`. -/
def IEvent.type : IEvent → EnumEvent
  | .machineSale _ _ => .sale
  | .machineRefill _ _ => .refill
  | .lowStockWarning _ => .stock_low
  | .stockLevelOk _ => .stock_ok

/-- `IEvent.machineId()`. -/
def IEvent.machineId : IEvent → String
  | .machineSale _ mid => mid
  | .machineRefill _ mid => mid
  | .lowStockWarning mid => mid
  | .stockLevelOk mid => mid

/-- Thrown `Error`s of the source, by site:
* `saleAmountNegative` = `Error("sale amount should be alteast 0")` in `Machine.sale`;
* `refillAmountNegative` = `Error("refill amount should be atleast 0")` in `Machine.refill`;
* `invalidSubscribe` = `Error("Invalid subscribe instant")` in `subscribe`;
* `typeError` = the runtime `TypeError` raised when a handler calls a
  quantity getter that the dispatched event does not implement. -/
inductive ErrMsg where
  | saleAmountNegative
  | refillAmountNegative
  | invalidSubscribe
  | typeError
deriving DecidableEq, Repr

/-- `class Machine { public stockLevel = 10; public id: string; }`. -/
structure Machine where
  stockLevel : Int
  id : String
deriving DecidableEq, Repr

/-- `new Machine(id)`: `stockLevel` starts at the fixed constant 10. -/
def Machine.new (id : String) : Machine := ⟨10, id⟩

/-- `Machine.sale(saleAmount)`:
```
if (saleAmount < 0) throw Error("sale amount should be alteast 0");
let prev = this.stockLevel;
this.stockLevel = Math.max(0, this.stockLevel - saleAmount);
if (prev >= 3 && this.stockLevel < 3) return true;
return false;
``` -/
def Machine.sale (m : Machine) (saleAmount : Int) : Except ErrMsg (Bool × Machine) :=
  if saleAmount < 0 then .error .saleAmountNegative
  else
    let prev := m.stockLevel
    let next := max 0 (m.stockLevel - saleAmount)
    .ok (decide (3 ≤ prev) && decide (next < 3), { m with stockLevel := next })

/-- `Machine.refill(refillAmount)`:
```
if (refillAmount < 0) throw Error("refill amount should be atleast 0");
let prev = this.stockLevel;
this.stockLevel += refillAmount;
if (prev < 3 && this.stockLevel >= 3) return true;
return false;
``` -/
def Machine.refill (m : Machine) (refillAmount : Int) : Except ErrMsg (Bool × Machine) :=
  if refillAmount < 0 then .error .refillAmountNegative
  else
    let prev := m.stockLevel
    let next := m.stockLevel + refillAmount
    .ok (decide (prev < 3) && decide (3 ≤ next), { m with stockLevel := next })

/-- Folding `Machine.sale` over a list of amounts (a finite sequence of sale
calls on one machine), stopping at the first thrown error. -/
def applySales (m : Machine) : List Int → Except ErrMsg Machine
  | [] => .ok m
  | a :: rest =>
    match m.sale a with
    | .error er => .error er
    | .ok (_, m') => applySales m' rest

namespace AppVariant

/-- `class Machine` of the older `src/app.ts` variant: unlike the canonical
core in `src/unnamed/part_000`, it carries the derived `isLowStock` flag. -/
structure Machine where
  stockLevel : Int
  id : String
  isLowStock : Bool
deriving DecidableEq, Repr

/-- `src/app.ts` `Machine.soldStock`:
```
if (soldAmount < 0) throw Error("sold amount should be 0 or more");
this.stockLevel = Math.max(0, this.stockLevel - soldAmount);
if (this.stockLevel < 3) this.isLowStock = true;
return this.isLowStock;
``` -/
def Machine.soldStock (m : Machine) (soldAmount : Int) : Except ErrMsg (Bool × Machine) :=
  if soldAmount < 0 then .error .saleAmountNegative
  else
    let next := max 0 (m.stockLevel - soldAmount)
    let low := if next < 3 then true else m.isLowStock
    .ok (low, { m with stockLevel := next, isLowStock := low })

/-- `src/app.ts` `Machine.refillStock`:
```
if (refillAmount < 0) throw Error("sold amount should be 0 or more");
this.stockLevel += refillAmount;
const isRefilled = this.isLowStock && this.stockLevel > 3;
if (this.stockLevel >= 3) this.isLowStock = false;
return isRefilled;
``` -/
def Machine.refillStock (m : Machine) (refillAmount : Int) : Except ErrMsg (Bool × Machine) :=
  if refillAmount < 0 then .error .refillAmountNegative
  else
    let next := m.stockLevel + refillAmount
    let isRefilled := m.isLowStock && decide (3 < next)
    .ok (isRefilled,
      { m with stockLevel := next, isLowStock := if 3 ≤ next then false else m.isLowStock })

end AppVariant

/-- The four `ISubscriber` implementations of the source. -/
inductive SubscriberClass where
  | machineSaleSubscriber
  | machineRefillSubscriber
  | machineStockWarningSubscriber
  | machineStockOkSubscriber
deriving DecidableEq, Repr

/-- A subscriber object: a stable identity (`sid`, mirroring JS object
identity inside the registry's `Set`) together with its class, which fixes
its `handle` behaviour. All subscribers in the source close over the one
shared `machines` array, which lives in the service state below. -/
structure Subscriber where
  sid : Nat
  cls : SubscriberClass
deriving DecidableEq, Repr

/-- Outcome of one `handle(event, lazyFire)` call: the machine array after
the call (mutated up to a possible throw), the events passed to `lazyFire`
in call order, and the error thrown, if any. -/
structure HandleResult where
  machines : List Machine
  emitted : List IEvent
  err : Option ErrMsg
deriving Repr

/-- `MachineSaleSubscriber.handle`: `this.machines.forEach`, and on an id
match `machine.sale(event.getSoldQuantity())`, firing
`new LowStockWarningEvent(machine.id)` when the sale reports the low-stock
transition. A throw inside `sale` stops the loop, leaving the remaining
machines untouched and the emissions made so far in place. -/
def saleHandleLoop (sold : Int) (mid : String) : List Machine → HandleResult
  | [] => ⟨[], [], none⟩
  | m :: rest =>
    if m.id = mid then
      match m.sale sold with
      | .error er => ⟨m :: rest, [], some er⟩
      | .ok (isLowStock, m') =>
        let r := saleHandleLoop sold mid rest
        ⟨m' :: r.machines, (if isLowStock then [IEvent.lowStockWarning m.id] else []) ++ r.emitted, r.err⟩
    else
      let r := saleHandleLoop sold mid rest
      ⟨m :: r.machines, r.emitted, r.err⟩

/-- `MachineRefillSubscriber.handle`: same loop with `machine.refill` and
`new StockLevelOkEvent(machine.id)`. -/
def refillHandleLoop (qty : Int) (mid : String) : List Machine → HandleResult
  | [] => ⟨[], [], none⟩
  | m :: rest =>
    if m.id = mid then
      match m.refill qty with
      | .error er => ⟨m :: rest, [], some er⟩
      | .ok (isRefilled, m') =>
        let r := refillHandleLoop qty mid rest
        ⟨m' :: r.machines, (if isRefilled then [IEvent.stockLevelOk m.id] else []) ++ r.emitted, r.err⟩
    else
      let r := refillHandleLoop qty mid rest
      ⟨m :: r.machines, r.emitted, r.err⟩

/-- `handler.handle(event, lazyFire)` for each subscriber class. A sale or
refill subscriber dispatched an event of the wrong variant calls a quantity
getter the event does not implement: at the first machine whose id matches it
raises a `TypeError` (and if no machine matches, the loop is a no-op). The
warning/ok subscribers only `console.log`. -/
def Subscriber.handle (s : Subscriber) (e : IEvent) (ms : List Machine) : HandleResult :=
  match s.cls, e with
  | .machineSaleSubscriber, .machineSale sold mid => saleHandleLoop sold mid ms
  | .machineSaleSubscriber, _ =>
    if ms.any (fun m => decide (m.id = e.machineId)) then ⟨ms, [], some .typeError⟩
    else ⟨ms, [], none⟩
  | .machineRefillSubscriber, .machineRefill qty mid => refillHandleLoop qty mid ms
  | .machineRefillSubscriber, _ =>
    if ms.any (fun m => decide (m.id = e.machineId)) then ⟨ms, [], some .typeError⟩
    else ⟨ms, [], none⟩
  | .machineStockWarningSubscriber, _ => ⟨ms, [], none⟩
  | .machineStockOkSubscriber, _ => ⟨ms, [], none⟩

/-- Outcome of dispatching one dequeued event to one registry bucket:
machines after, events lazy-fired (in firing order), handler invocations
made (in bucket order), and the first error thrown, if any. -/
structure DispatchResult where
  machines : List Machine
  emitted : List IEvent
  fired : List (Subscriber × IEvent)
  err : Option ErrMsg
deriving Repr

/-- `this.getCallbackPool(event.type()).forEach((handler) => handler.handle(event, this.addEvent.bind(this)))`:
the bucket's subscribers are invoked in insertion order; a throw from one
handler aborts the iteration. -/
def dispatchToBucket (e : IEvent) : List Subscriber → List Machine → DispatchResult
  | [], ms => ⟨ms, [], [], none⟩
  | s :: rest, ms =>
    let h := s.handle e ms
    match h.err with
    | some er => ⟨h.machines, h.emitted, [(s, e)], some er⟩
    | none =>
      let r := dispatchToBucket e rest h.machines
      ⟨r.machines, h.emitted ++ r.emitted, (s, e) :: r.fired, r.err⟩

/-- `class PublishSubscribeService`: `pool: ICallbackPool` (a map from event
kind to a `Set` of subscribers, modelled as a total function with empty
default, which is what `getCallbackPool`'s create-on-demand amounts to) and
`eventQueue: IEvent[]`. The shared `machines` array the subscribers close
over, plus two instrumentation fields — `trace` (every handler invocation,
in order) and `dispatchLog` (every dequeued event, in order) — are carried
alongside to state observable-behaviour theorems. -/
structure PublishSubscribeService where
  pool : EnumEvent → List Subscriber
  eventQueue : List IEvent
  machines : List Machine
  trace : List (Subscriber × IEvent)
  dispatchLog : List IEvent

namespace PublishSubscribeService

/-- `new PublishSubscribeService()` (with a given shared machine array):
`this.pool = {}; this.eventQueue = [];`. -/
def init (ms : List Machine) : PublishSubscribeService :=
  ⟨fun _ => [], [], ms, [], []⟩

/-- `getCallbackPool(type)`. -/
def getCallbackPool (ps : PublishSubscribeService) (t : EnumEvent) : List Subscriber :=
  ps.pool t

/-- `addEvent(event)`: `this.eventQueue.push(event)` — tail append. -/
def addEvent (ps : PublishSubscribeService) (e : IEvent) : PublishSubscribeService :=
  { ps with eventQueue := ps.eventQueue ++ [e] }

/-- One iteration of the `executeEvent` while loop, after
`const event = this.eventQueue.shift()` has removed `e`, with `rest` the
remaining queue: dispatch `e` to the bucket for its kind; the lazy-fired
events end up pushed at the tail of the queue. Returns the service state at
the end of the iteration together with the error thrown during it, if any. -/
def dispatchStep (ps : PublishSubscribeService) (e : IEvent) (rest : List IEvent) :
    PublishSubscribeService × Option ErrMsg :=
  let r := dispatchToBucket e (ps.getCallbackPool e.type) ps.machines
  ({ ps with machines := r.machines, eventQueue := rest ++ r.emitted,
             trace := ps.trace ++ r.fired, dispatchLog := ps.dispatchLog ++ [e] }, r.err)

/-- Termination measure for the drain loop: a sale (resp. refill) event can
cascade at most one warning (resp. ok) event per subscriber in its bucket per
machine, and warning/ok events cascade nothing. -/
def eventWeight (pool : EnumEvent → List Subscriber) (nm : Nat) : IEvent → Nat
  | .machineSale _ _ => 1 + (pool .sale).length * nm
  | .machineRefill _ _ => 1 + (pool .refill).length * nm
  | .lowStockWarning _ => 1
  | .stockLevelOk _ => 1

/-- Total weight of a pending-event queue. -/
def queueWeight (pool : EnumEvent → List Subscriber) (nm : Nat) (q : List IEvent) : Nat :=
  (q.map (eventWeight pool nm)).sum

/-- Fuel needed to fully drain the queue of a service state
(`executeEventFuel_total` below proves it suffices). -/
def drainFuel (ps : PublishSubscribeService) : Nat :=
  queueWeight ps.pool ps.machines.length ps.eventQueue

/-- `executeEvent()`'s while loop, with explicit fuel: while the queue is
nonempty, shift the head event and dispatch it; a handler throw propagates
immediately, leaving the service state as it was at the throw (the source's
`if (!event) continue` guard is dead, as `shift` on a nonempty array always
yields an element). `none` means the fuel ran out, which `drainFuel` rules
out. -/
def executeEventFuel : Nat → PublishSubscribeService →
    Option (PublishSubscribeService × Option ErrMsg)
  | 0, ps =>
    match ps.eventQueue with
    | [] => some (ps, none)
    | _ :: _ => none
  | n + 1, ps =>
    match ps.eventQueue with
    | [] => some (ps, none)
    | e :: rest =>
      let r := dispatchStep ps e rest
      match r.2 with
      | some er => some (r.1, some er)
      | none => executeEventFuel n r.1

/-- `executeEvent()`: run the loop with sufficient fuel. -/
def executeEvent (ps : PublishSubscribeService) : PublishSubscribeService × Option ErrMsg :=
  (executeEventFuel (drainFuel ps) ps).getD (ps, none)

/-- `publish(event)`: `this.addEvent(event); this.executeEvent();`. -/
def publish (ps : PublishSubscribeService) (e : IEvent) :
    PublishSubscribeService × Option ErrMsg :=
  executeEvent (ps.addEvent e)

/-- The subscriber class that `subscribe`'s `instanceof` guards demand for
each event kind. -/
def requiredClass : EnumEvent → SubscriberClass
  | .sale => .machineSaleSubscriber
  | .refill => .machineRefillSubscriber
  | .stock_low => .machineStockWarningSubscriber
  | .stock_ok => .machineStockOkSubscriber

/-- JS `Set.prototype.add` on an insertion-ordered, identity-keyed set. -/
def setAdd (l : List Subscriber) (h : Subscriber) : List Subscriber :=
  if h ∈ l then l else l ++ [h]

/-- `subscribe(type, handler)`: four `instanceof` guards throwing
`Error("Invalid subscribe instant")` on a class/kind mismatch, then
`this.getCallbackPool(type).add(handler)`. -/
def subscribe (ps : PublishSubscribeService) (t : EnumEvent) (h : Subscriber) :
    PublishSubscribeService × Option ErrMsg :=
  if h.cls = requiredClass t then
    ({ ps with pool := fun k => if k = t then setAdd (ps.pool k) h else ps.pool k }, none)
  else (ps, some .invalidSubscribe)

/-- `unsubscribe(handler)`: `Object.keys(this.pool).forEach((keyPool) => this.pool[keyPool]?.delete(handler))` —
the handler is deleted from every kind bucket, by identity. -/
def unsubscribe (ps : PublishSubscribeService) (h : Subscriber) : PublishSubscribeService :=
  { ps with pool := fun k => (ps.pool k).filter (fun s => decide (s ≠ h)) }

end PublishSubscribeService

/-- A call a client can make on the service between or around publishes. -/
inductive Op where
  | sub (t : EnumEvent) (h : Subscriber)
  | unsub (h : Subscriber)
  | pub (e : IEvent)

/-- Run one client call (a thrown error does not roll back the service). -/
def runOp (ps : PublishSubscribeService) : Op → PublishSubscribeService × Option ErrMsg
  | .sub t h => ps.subscribe t h
  | .unsub h => (ps.unsubscribe h, none)
  | .pub e => ps.publish e

/-- Run a sequence of client calls, threading the service state. -/
def runOps (ps : PublishSubscribeService) : List Op → PublishSubscribeService
  | [] => ps
  | o :: rest => runOps (runOp ps o).1 rest

/-- Every `publish` in the sequence completes without a handler throw. -/
def pubsOk (ps : PublishSubscribeService) : List Op → Bool
  | [] => true
  | o :: rest =>
    (match o with
      | .pub _ => (runOp ps o).2.isNone
      | _ => true) && pubsOk (runOp ps o).1 rest

/-- The handler invocations that a drain makes for a list of dequeued events:
for each event, the full bucket for its kind, in bucket order. -/
def bucketTrace (pool : EnumEvent → List Subscriber) : List IEvent → List (Subscriber × IEvent)
  | [] => []
  | e :: rest => (pool e.type).map (fun s => (s, e)) ++ bucketTrace pool rest

/-- The three machines of the demo harness (`new Machine("001")`, ...). -/
def demoMachines : List Machine :=
  [Machine.new "001", Machine.new "002", Machine.new "003"]

/-- `new MachineSaleSubscriber(machines)` of the demo harness. -/
def saleSubscriber : Subscriber := ⟨0, .machineSaleSubscriber⟩

/-- `new MachineRefillSubscriber(machines)` of the demo harness. -/
def refillSubscriber : Subscriber := ⟨1, .machineRefillSubscriber⟩

/-- `new MachineStockWarningSubscriber(machines)` of the demo harness. -/
def stockWarningSubscriber : Subscriber := ⟨2, .machineStockWarningSubscriber⟩

/-- `new MachineStockOkSubscriber(machines)` of the demo harness. -/
def stockOkSubscriber : Subscriber := ⟨3, .machineStockOkSubscriber⟩

/-- The demo service: `new PublishSubscribeService()` over the three demo
machines, with the four demo subscribers registered for their kinds. -/
def demoService : PublishSubscribeService :=
  (((((PublishSubscribeService.init demoMachines).subscribe .sale saleSubscriber).1.subscribe
      .refill refillSubscriber).1.subscribe
      .stock_low stockWarningSubscriber).1.subscribe
      .stock_ok stockOkSubscriber).1
theorem sale_spec (m : Machine) (a : Int) (ha : 0 ≤ a) :
    ∃ b m', m.sale a = .ok (b, m') ∧
      m'.stockLevel = max 0 (m.stockLevel - a) ∧
      m'.id = m.id ∧
      (b = true ↔ (3 ≤ m.stockLevel ∧ m'.stockLevel < 3)) ∧
      (m.stockLevel < 3 → a = 0 → b = false) := by
  refine ⟨decide (3 ≤ m.stockLevel) && decide (max 0 (m.stockLevel - a) < 3),
    { m with stockLevel := max 0 (m.stockLevel - a) }, ?_, rfl, rfl, ?_, ?_⟩
  · unfold Machine.sale
    rw [if_neg (by omega)]
  · simp only [Bool.and_eq_true, decide_eq_true_eq]
  · intro hlow ha0
    subst ha0
    simp only [Bool.and_eq_false_iff, decide_eq_false_iff_not]
    left
    omega

/-- C1: For every machine and every non-negative amount, `Machine.sale`
succeeds, reduces `stockLevel` by the amount floored at 0, and returns `true`
exactly when `stockLevel` crosses from `≥ 3` before the call to `< 3` after
the call; in particular a sale of 0 on a machine already below 3 returns
`false`. -/
theorem sale_edge_triggered (m : Machine) (a : Int) (ha : 0 ≤ a) :
    ∃ b m', m.sale a = .ok (b, m') ∧
      m'.stockLevel = max 0 (m.stockLevel - a) ∧
      m'.id = m.id ∧
      (b = true ↔ (3 ≤ m.stockLevel ∧ m'.stockLevel < 3)) ∧
      (m.stockLevel < 3 → a = 0 → b = false) :=
  sale_spec m a ha

/-- Closed instance of `sale_edge_triggered`: a machine at stock 10 sold 8
drops to 2 and reports the low-stock transition; additionally evaluating the
definition shows that a subsequent sale of 0 at stock 2 returns `false`. -/
theorem sale_edge_triggered_witness :
    (0 ≤ (8 : Int) ∧
      ∃ b m', (Machine.new "002").sale 8 = .ok (b, m') ∧
        m'.stockLevel = max 0 ((Machine.new "002").stockLevel - 8) ∧
        m'.id = (Machine.new "002").id ∧
        (b = true ↔ (3 ≤ (Machine.new "002").stockLevel ∧ m'.stockLevel < 3)) ∧
        ((Machine.new "002").stockLevel < 3 → (8 : Int) = 0 → b = false)) ∧
      (Machine.sale ⟨2, "002"⟩ 0 = .ok (false, ⟨2, "002"⟩)) :=
  ⟨⟨by decide, sale_edge_triggered (Machine.new "002") 8 (by decide)⟩, by rfl⟩

/-- C2: For every machine and every non-negative amount, `Machine.refill`
succeeds, increases `stockLevel` by the amount, and returns `true` exactly
when `stockLevel` crosses from `< 3` before the call to `≥ 3` after the call
(the threshold 3 is inclusive on the ok side). -/
theorem refill_edge_triggered (m : Machine) (a : Int) (ha : 0 ≤ a) :
    ∃ b m', m.refill a = .ok (b, m') ∧
      m'.stockLevel = m.stockLevel + a ∧
      m'.id = m.id ∧
      (b = true ↔ (m.stockLevel < 3 ∧ 3 ≤ m'.stockLevel)) := by
  refine ⟨decide (m.stockLevel < 3) && decide (3 ≤ m.stockLevel + a),
    { m with stockLevel := m.stockLevel + a }, ?_, rfl, rfl, ?_⟩
  · unfold Machine.refill
    rw [if_neg (by omega)]
  · simp only [Bool.and_eq_true, decide_eq_true_eq]

/-- Closed instance of `refill_edge_triggered`: refilling a machine at stock 2
by 1 reaches exactly 3 and returns `true` (inclusive threshold). -/
theorem refill_edge_triggered_witness :
    (0 ≤ (1 : Int) ∧
      ∃ b m', Machine.refill ⟨2, "002"⟩ 1 = .ok (b, m') ∧
        m'.stockLevel = (2 : Int) + 1 ∧
        m'.id = "002" ∧
        (b = true ↔ ((2 : Int) < 3 ∧ 3 ≤ m'.stockLevel))) ∧
      Machine.refill ⟨2, "002"⟩ 1 = .ok (true, ⟨3, "002"⟩) :=
  ⟨⟨by decide, refill_edge_triggered ⟨2, "002"⟩ 1 (by decide)⟩, by rfl⟩

/-- C7: starting from any non-negative stock level, a finite sequence of sale
calls with non-negative amounts never takes `stockLevel` below 0: every
prefix of the sequence succeeds and leaves a non-negative stock level. -/
theorem stockLevel_never_negative (m : Machine) (amts : List Int)
    (h0 : 0 ≤ m.stockLevel) (hall : ∀ a ∈ amts, 0 ≤ a) :
    ∀ pre suf, amts = pre ++ suf →
      ∃ m', applySales m pre = .ok m' ∧ 0 ≤ m'.stockLevel := by
  intro pre suf hsplit
  subst hsplit
  have hpre : ∀ a ∈ pre, 0 ≤ a := fun a ha => hall a (List.mem_append_left _ ha)
  clear hall
  induction pre generalizing m with
  | nil => exact ⟨m, rfl, h0⟩
  | cons a rest ih =>
    have ha : 0 ≤ a := hpre a (List.mem_cons_self _ _)
    have hrest : ∀ x ∈ rest, 0 ≤ x := fun x hx => hpre x (List.mem_cons_of_mem _ hx)
    obtain ⟨b, m', hok, hlev, _, _⟩ := sale_spec m a ha
    refine ?_
    simp only [applySales, hok]
    exact ih m' (by rw [hlev]; exact le_max_left _ _) hrest

/-- Closed instance of `stockLevel_never_negative`: the machine at stock 10
survives the sale sequence `[8, 7, 0]` (prefix `[8, 7]`) without going
negative. -/
theorem stockLevel_never_negative_witness :
    (0 ≤ (Machine.new "002").stockLevel ∧
        (∀ a ∈ [(8 : Int), 7, 0], 0 ≤ a) ∧
        [(8 : Int), 7, 0] = [8, 7] ++ [0]) ∧
      ∃ m', applySales (Machine.new "002") [8, 7] = .ok m' ∧ 0 ≤ m'.stockLevel :=
  ⟨⟨by decide, by decide, by decide⟩,
    stockLevel_never_negative (Machine.new "002") [8, 7, 0] (by decide) (by decide)
      [8, 7] [0] (by decide)⟩


theorem saleHandleLoop_spec (q : Int) (mid : String) : ∀ ms : List Machine,
    (saleHandleLoop q mid ms).machines.length = ms.length ∧
    (saleHandleLoop q mid ms).emitted.length ≤ ms.length ∧
    ∀ x ∈ (saleHandleLoop q mid ms).emitted, x.type = .stock_low := by
  intro ms
  induction ms with
  | nil => exact ⟨rfl, Nat.le_refl 0, by intro x hx; simp [saleHandleLoop] at hx⟩
  | cons m rest ih =>
    obtain ⟨ih1, ih2, ih3⟩ := ih
    by_cases hid : m.id = mid
    · rcases hs : m.sale q with er | p
      · simp only [saleHandleLoop, hid, if_true, hs]
        exact ⟨by simp, by simp, by intro x hx; simp at hx⟩
      · obtain ⟨b, m'⟩ := p
        simp only [saleHandleLoop, hid, if_true, hs]
        refine ⟨by simp [ih1], ?_, ?_⟩
        · rcases b with _ | _ <;> simp <;> omega
        · intro x hx
          simp only [List.mem_append] at hx
          rcases hx with hx | hx
          · rcases b with _ | _ <;> simp at hx
            rw [hx]; rfl
          · exact ih3 x hx
    · simp only [saleHandleLoop, hid, if_false]
      exact ⟨by simp [ih1], by simp; omega, ih3⟩

theorem refillHandleLoop_spec (q : Int) (mid : String) : ∀ ms : List Machine,
    (refillHandleLoop q mid ms).machines.length = ms.length ∧
    (refillHandleLoop q mid ms).emitted.length ≤ ms.length ∧
    ∀ x ∈ (refillHandleLoop q mid ms).emitted, x.type = .stock_ok := by
  intro ms
  induction ms with
  | nil => exact ⟨rfl, Nat.le_refl 0, by intro x hx; simp [refillHandleLoop] at hx⟩
  | cons m rest ih =>
    obtain ⟨ih1, ih2, ih3⟩ := ih
    by_cases hid : m.id = mid
    · rcases hs : m.refill q with er | p
      · simp only [refillHandleLoop, hid, if_true, hs]
        exact ⟨by simp, by simp, by intro x hx; simp at hx⟩
      · obtain ⟨b, m'⟩ := p
        simp only [refillHandleLoop, hid, if_true, hs]
        refine ⟨by simp [ih1], ?_, ?_⟩
        · rcases b with _ | _ <;> simp <;> omega
        · intro x hx
          simp only [List.mem_append] at hx
          rcases hx with hx | hx
          · rcases b with _ | _ <;> simp at hx
            rw [hx]; rfl
          · exact ih3 x hx
    · simp only [refillHandleLoop, hid, if_false]
      exact ⟨by simp [ih1], by simp; omega, ih3⟩

theorem handle_spec (s : Subscriber) (e : IEvent) (ms : List Machine) :
    ((s.handle e ms).machines.length = ms.length ∧
      (s.handle e ms).emitted.length ≤ ms.length) ∧
    ∀ x ∈ (s.handle e ms).emitted, x.type = .stock_low ∨ x.type = .stock_ok := by
  obtain ⟨sid, cls⟩ := s
  cases cls <;> cases e <;>
    simp only [Subscriber.handle] <;>
    first
      | exact ⟨⟨(saleHandleLoop_spec _ _ _).1, (saleHandleLoop_spec _ _ _).2.1⟩,
          fun x hx => Or.inl ((saleHandleLoop_spec _ _ _).2.2 x hx)⟩
      | exact ⟨⟨(refillHandleLoop_spec _ _ _).1, (refillHandleLoop_spec _ _ _).2.1⟩,
          fun x hx => Or.inr ((refillHandleLoop_spec _ _ _).2.2 x hx)⟩
      | (split <;> exact ⟨⟨by simp, by simp⟩, by intro x hx; simp at hx⟩)
      | exact ⟨⟨by simp, by simp⟩, by intro x hx; simp at hx⟩

theorem handle_no_emit (s : Subscriber) (e : IEvent) (ms : List Machine)
    (he : e.type = .stock_low ∨ e.type = .stock_ok) :
    (s.handle e ms).emitted = [] := by
  obtain ⟨sid, cls⟩ := s
  cases e with
  | machineSale sold mid => simp [IEvent.type] at he
  | machineRefill qty mid => simp [IEvent.type] at he
  | lowStockWarning mid =>
    cases cls <;> simp only [Subscriber.handle] <;> try rfl
    all_goals (split <;> rfl)
  | stockLevelOk mid =>
    cases cls <;> simp only [Subscriber.handle] <;> try rfl
    all_goals (split <;> rfl)

theorem dispatchToBucket_spec (e : IEvent) : ∀ (bucket : List Subscriber) (ms : List Machine),
    (dispatchToBucket e bucket ms).machines.length = ms.length ∧
    (dispatchToBucket e bucket ms).emitted.length ≤ bucket.length * ms.length ∧
    ∀ x ∈ (dispatchToBucket e bucket ms).emitted, x.type = .stock_low ∨ x.type = .stock_ok := by
  intro bucket
  induction bucket with
  | nil =>
    intro ms
    exact ⟨rfl, by simp [dispatchToBucket], by intro x hx; simp [dispatchToBucket] at hx⟩
  | cons s rest ih =>
    intro ms
    obtain ⟨⟨hlen, hemlen⟩, hcas⟩ := handle_spec s e ms
    rcases her : (s.handle e ms).err with _ | er
    · obtain ⟨ih1, ih2, ih3⟩ := ih (s.handle e ms).machines
      simp only [dispatchToBucket, her]
      refine ⟨by rw [ih1, hlen], ?_, ?_⟩
      · rw [List.length_append]
        calc (s.handle e ms).emitted.length +
              (dispatchToBucket e rest (s.handle e ms).machines).emitted.length
            ≤ ms.length + rest.length * ms.length := by
              refine Nat.add_le_add hemlen ?_
              calc (dispatchToBucket e rest (s.handle e ms).machines).emitted.length
                  ≤ rest.length * (s.handle e ms).machines.length := ih2
                _ = rest.length * ms.length := by rw [hlen]
          _ = (s :: rest).length * ms.length := by simp [List.length_cons]; ring
      · intro x hx
        rcases List.mem_append.mp hx with hx | hx
        · exact hcas x hx
        · exact ih3 x hx
    · simp only [dispatchToBucket, her]
      refine ⟨hlen, ?_, hcas⟩
      calc (s.handle e ms).emitted.length ≤ ms.length := hemlen
        _ ≤ (s :: rest).length * ms.length := Nat.le_mul_of_pos_left _ (Nat.succ_pos _)

theorem dispatchToBucket_no_emit (e : IEvent)
    (he : e.type = .stock_low ∨ e.type = .stock_ok) :
    ∀ (bucket : List Subscriber) (ms : List Machine),
      (dispatchToBucket e bucket ms).emitted = [] := by
  intro bucket
  induction bucket with
  | nil => intro ms; rfl
  | cons s rest ih =>
    intro ms
    rcases her : (s.handle e ms).err with _ | er <;> simp only [dispatchToBucket, her]
    · rw [handle_no_emit s e ms he, ih]
      rfl
    · exact handle_no_emit s e ms he

theorem dispatchToBucket_ok_fired (e : IEvent) : ∀ (bucket : List Subscriber) (ms : List Machine),
    (dispatchToBucket e bucket ms).err = none →
    (dispatchToBucket e bucket ms).fired = bucket.map (fun s => (s, e)) := by
  intro bucket
  induction bucket with
  | nil => intro ms _; rfl
  | cons s rest ih =>
    intro ms hok
    rcases her : (s.handle e ms).err with _ | er
    · simp only [dispatchToBucket, her] at hok ⊢
      rw [ih _ hok]
      rfl
    · exfalso
      simp only [dispatchToBucket, her] at hok
      exact Option.some_ne_none er hok

theorem dispatchToBucket_single (h : Subscriber) (e : IEvent) (ms : List Machine) :
    dispatchToBucket e [h] ms =
      ⟨(h.handle e ms).machines, (h.handle e ms).emitted, [(h, e)], (h.handle e ms).err⟩ := by
  rcases her : (h.handle e ms).err with _ | er <;>
    simp [dispatchToBucket, her]

namespace PublishSubscribeService

theorem eventWeight_pos (pool : EnumEvent → List Subscriber) (nm : Nat) (x : IEvent) :
    1 ≤ eventWeight pool nm x := by
  cases x <;> simp only [eventWeight] <;> omega

theorem eventWeight_cascade (pool : EnumEvent → List Subscriber) (nm : Nat) (x : IEvent)
    (hx : x.type = .stock_low ∨ x.type = .stock_ok) : eventWeight pool nm x = 1 := by
  cases x <;> first | rfl | (simp [IEvent.type] at hx)

theorem queueWeight_cons (pool : EnumEvent → List Subscriber) (nm : Nat) (e : IEvent)
    (q : List IEvent) :
    queueWeight pool nm (e :: q) = eventWeight pool nm e + queueWeight pool nm q := by
  simp [queueWeight]

theorem queueWeight_append (pool : EnumEvent → List Subscriber) (nm : Nat) (a b : List IEvent) :
    queueWeight pool nm (a ++ b) = queueWeight pool nm a + queueWeight pool nm b := by
  simp [queueWeight]

theorem queueWeight_cascade (pool : EnumEvent → List Subscriber) (nm : Nat) :
    ∀ q : List IEvent, (∀ x ∈ q, x.type = .stock_low ∨ x.type = .stock_ok) →
      queueWeight pool nm q = q.length := by
  intro q hq
  induction q with
  | nil => rfl
  | cons x rest ih =>
    rw [queueWeight_cons, eventWeight_cascade pool nm x (hq x (List.mem_cons_self _ _)),
      ih (fun y hy => hq y (List.mem_cons_of_mem _ hy))]
    simp [Nat.add_comm]

theorem dispatchStep_fst_pool (ps : PublishSubscribeService) (e : IEvent) (rest : List IEvent) :
    (dispatchStep ps e rest).1.pool = ps.pool := rfl

theorem dispatchStep_fst_machines (ps : PublishSubscribeService) (e : IEvent)
    (rest : List IEvent) :
    (dispatchStep ps e rest).1.machines =
      (dispatchToBucket e (ps.pool e.type) ps.machines).machines := rfl

theorem dispatchStep_fst_queue (ps : PublishSubscribeService) (e : IEvent) (rest : List IEvent) :
    (dispatchStep ps e rest).1.eventQueue =
      rest ++ (dispatchToBucket e (ps.pool e.type) ps.machines).emitted := rfl

theorem dispatchStep_fst_trace (ps : PublishSubscribeService) (e : IEvent) (rest : List IEvent) :
    (dispatchStep ps e rest).1.trace =
      ps.trace ++ (dispatchToBucket e (ps.pool e.type) ps.machines).fired := rfl

theorem dispatchStep_fst_log (ps : PublishSubscribeService) (e : IEvent) (rest : List IEvent) :
    (dispatchStep ps e rest).1.dispatchLog = ps.dispatchLog ++ [e] := rfl

theorem dispatchStep_snd (ps : PublishSubscribeService) (e : IEvent) (rest : List IEvent) :
    (dispatchStep ps e rest).2 = (dispatchToBucket e (ps.pool e.type) ps.machines).err := rfl

theorem dispatchStep_drainFuel_lt (ps : PublishSubscribeService) (e : IEvent)
    (rest : List IEvent) (hq : ps.eventQueue = e :: rest) :
    drainFuel (dispatchStep ps e rest).1 < drainFuel ps := by
  obtain ⟨hml, heml, hcas⟩ := dispatchToBucket_spec e (ps.pool e.type) ps.machines
  unfold drainFuel
  rw [dispatchStep_fst_pool, dispatchStep_fst_machines, dispatchStep_fst_queue, hml, hq,
    queueWeight_append, queueWeight_cascade _ _ _ hcas, queueWeight_cons]
  have hlt : (dispatchToBucket e (ps.pool e.type) ps.machines).emitted.length
      < eventWeight ps.pool ps.machines.length e := by
    cases e with
    | machineSale sold mid =>
      simp only [IEvent.type] at heml ⊢
      simp only [eventWeight]
      omega
    | machineRefill qty mid =>
      simp only [IEvent.type] at heml ⊢
      simp only [eventWeight]
      omega
    | lowStockWarning mid =>
      rw [dispatchToBucket_no_emit (IEvent.lowStockWarning mid) (Or.inl rfl)]
      simp [eventWeight]
    | stockLevelOk mid =>
      rw [dispatchToBucket_no_emit (IEvent.stockLevelOk mid) (Or.inr rfl)]
      simp [eventWeight]
  omega

theorem executeEventFuel_total : ∀ (n : Nat) (ps : PublishSubscribeService),
    drainFuel ps ≤ n → (executeEventFuel n ps).isSome := by
  intro n
  induction n with
  | zero =>
    intro ps h
    cases hq : ps.eventQueue with
    | nil => simp [executeEventFuel, hq]
    | cons e rest =>
      exfalso
      have h1 : 1 ≤ drainFuel ps := by
        unfold drainFuel
        rw [hq, queueWeight_cons]
        have := eventWeight_pos ps.pool ps.machines.length e
        omega
      omega
  | succ n ih =>
    intro ps h
    cases hq : ps.eventQueue with
    | nil => simp [executeEventFuel, hq]
    | cons e rest =>
      have hlt := dispatchStep_drainFuel_lt ps e rest hq
      simp only [executeEventFuel, hq]
      rcases her : (dispatchStep ps e rest).2 with _ | er
      · simp only [her]
        exact ih _ (by omega)
      · simp [her]

theorem executeEventFuel_mono : ∀ (n : Nat) (ps : PublishSubscribeService)
    (r : PublishSubscribeService × Option ErrMsg),
    executeEventFuel n ps = some r → executeEventFuel (n + 1) ps = some r := by
  intro n
  induction n with
  | zero =>
    intro ps r h
    cases hq : ps.eventQueue with
    | nil =>
      simp only [executeEventFuel, hq] at h ⊢
      exact h
    | cons e rest =>
      simp only [executeEventFuel, hq] at h
      exact absurd h (by simp)
  | succ n ih =>
    intro ps r h
    cases hq : ps.eventQueue with
    | nil =>
      simp only [executeEventFuel, hq] at h ⊢
      exact h
    | cons e rest =>
      simp only [executeEventFuel, hq] at h ⊢
      rcases her : (dispatchStep ps e rest).2 with _ | er <;> simp only [her] at h ⊢
      · exact ih _ _ h
      · exact h

theorem executeEventFuel_mono_le {n m : Nat} (hnm : n ≤ m) (ps : PublishSubscribeService)
    (r : PublishSubscribeService × Option ErrMsg)
    (h : executeEventFuel n ps = some r) : executeEventFuel m ps = some r := by
  induction m, hnm using Nat.le_induction with
  | base => exact h
  | succ m hm ih => exact executeEventFuel_mono m ps r ih

theorem executeEvent_eq_of_fuel (n : Nat) (ps : PublishSubscribeService)
    (r : PublishSubscribeService × Option ErrMsg)
    (h : executeEventFuel n ps = some r) : executeEvent ps = r := by
  unfold executeEvent
  rcases Nat.le_total n (drainFuel ps) with hle | hle
  · rw [executeEventFuel_mono_le hle ps r h]
    rfl
  · have htot := executeEventFuel_total (drainFuel ps) ps (Nat.le_refl _)
    rcases ho : executeEventFuel (drainFuel ps) ps with _ | rr
    · rw [ho] at htot
      simp at htot
    · have h2 := executeEventFuel_mono_le hle ps rr ho
      rw [h2] at h
      injection h with h3

theorem executeEventFuel_ok_spec : ∀ (n : Nat) (ps ps' : PublishSubscribeService),
    executeEventFuel n ps = some (ps', none) →
    ps'.pool = ps.pool ∧ ps'.machines.length = ps.machines.length ∧ ps'.eventQueue = [] ∧
    ∃ tail, ps'.dispatchLog = ps.dispatchLog ++ (ps.eventQueue ++ tail) ∧
      ps'.trace = ps.trace ++ bucketTrace ps.pool (ps.eventQueue ++ tail) := by
  intro n
  induction n with
  | zero =>
    intro ps ps' h
    cases hq : ps.eventQueue with
    | nil =>
      simp only [executeEventFuel, hq] at h
      injection h with h1
      injection h1 with hps hn
      subst hps
      exact ⟨rfl, rfl, hq, [], by simp, by simp [hq, bucketTrace]⟩
    | cons e rest =>
      simp only [executeEventFuel, hq] at h
      exact absurd h (by simp)
  | succ n ih =>
    intro ps ps' h
    cases hq : ps.eventQueue with
    | nil =>
      simp only [executeEventFuel, hq] at h
      injection h with h1
      injection h1 with hps hn
      subst hps
      exact ⟨rfl, rfl, hq, [], by simp, by simp [hq, bucketTrace]⟩
    | cons e rest =>
      simp only [executeEventFuel, hq] at h
      rcases her : (dispatchStep ps e rest).2 with _ | er
      · simp only [her] at h
        obtain ⟨hpool, hml, hq2, tail, hlog, htr⟩ := ih _ _ h
        obtain ⟨hbl, -, -⟩ := dispatchToBucket_spec e (ps.pool e.type) ps.machines
        have hfired : (dispatchToBucket e (ps.pool e.type) ps.machines).fired
            = (ps.pool e.type).map (fun s => (s, e)) :=
          dispatchToBucket_ok_fired e _ _ (by exact her)
        refine ⟨hpool, ?_, hq2,
          (dispatchToBucket e (ps.pool e.type) ps.machines).emitted ++ tail, ?_, ?_⟩
        · rw [hml, dispatchStep_fst_machines, hbl]
        · rw [hlog, dispatchStep_fst_log, dispatchStep_fst_queue]
          simp [List.append_assoc]
        · rw [htr, dispatchStep_fst_trace, dispatchStep_fst_pool, dispatchStep_fst_queue, hfired]
          simp only [bucketTrace, List.append_assoc, List.append_eq]
      · simp only [her] at h
        exact absurd h (by simp)

theorem executeEventFuel_cons_err (n : Nat) (ps : PublishSubscribeService) (e : IEvent)
    (rest : List IEvent) (er : ErrMsg) (hq : ps.eventQueue = e :: rest)
    (her : (dispatchStep ps e rest).2 = some er) :
    executeEventFuel (n + 1) ps = some ((dispatchStep ps e rest).1, some er) := by
  simp only [executeEventFuel, hq, her]

theorem executeEventFuel_cons_ok (n : Nat) (ps : PublishSubscribeService) (e : IEvent)
    (rest : List IEvent) (hq : ps.eventQueue = e :: rest)
    (her : (dispatchStep ps e rest).2 = none) :
    executeEventFuel (n + 1) ps = executeEventFuel n (dispatchStep ps e rest).1 := by
  simp only [executeEventFuel, hq, her]

theorem executeEventFuel_empty_buckets : ∀ (q : List IEvent) (n : Nat)
    (ps : PublishSubscribeService), ps.eventQueue = q → (∀ x ∈ q, ps.pool x.type = []) →
    q.length ≤ n →
    executeEventFuel n ps =
      some ({ ps with eventQueue := [], dispatchLog := ps.dispatchLog ++ q }, none) := by
  intro q
  induction q with
  | nil =>
    intro n ps hq hp hn
    obtain ⟨pool, q, ms, tr, lg⟩ := ps
    have hq2 : q = [] := hq
    subst hq2
    cases n <;> simp [executeEventFuel]
  | cons x rest ih =>
    intro n ps hq hp hn
    cases n with
    | zero =>
      exfalso
      simp only [List.length_cons] at hn
      omega
    | succ n =>
      have hb : ps.pool x.type = [] := hp x (List.mem_cons_self _ _)
      have hstep2 : (dispatchStep ps x rest).2 = none := by
        rw [dispatchStep_snd, hb]
        rfl
      rw [executeEventFuel_cons_ok n ps x rest hq hstep2]
      have hstep1 : (dispatchStep ps x rest).1 =
          { ps with eventQueue := rest, dispatchLog := ps.dispatchLog ++ [x] } := by
        cases ps
        simp only [dispatchStep, getCallbackPool] at hb ⊢
        simp [hb, dispatchToBucket]
      rw [hstep1]
      rw [ih n { ps with eventQueue := rest, dispatchLog := ps.dispatchLog ++ [x] } rfl
        (fun y hy => hp y (List.mem_cons_of_mem _ hy))
        (by simp only [List.length_cons] at hn; omega)]
      have hl : (ps.dispatchLog ++ [x]) ++ rest = ps.dispatchLog ++ x :: rest := by
        simp
      simp only [hl]

theorem executeEvent_ok_spec (ps ps' : PublishSubscribeService)
    (h : executeEvent ps = (ps', none)) :
    ps'.pool = ps.pool ∧ ps'.machines.length = ps.machines.length ∧ ps'.eventQueue = [] ∧
    ∃ tail, ps'.dispatchLog = ps.dispatchLog ++ (ps.eventQueue ++ tail) ∧
      ps'.trace = ps.trace ++ bucketTrace ps.pool (ps.eventQueue ++ tail) := by
  have htot := executeEventFuel_total (drainFuel ps) ps (Nat.le_refl _)
  rcases ho : executeEventFuel (drainFuel ps) ps with _ | r
  · rw [ho] at htot
    simp at htot
  · have hr : r = (ps', none) := (executeEvent_eq_of_fuel (drainFuel ps) ps r ho).symm.trans h
    rw [hr] at ho
    exact executeEventFuel_ok_spec (drainFuel ps) ps ps' ho

/-- C3: the drain loop of `publish` processes events in FIFO order with
cascaded events appended at the tail of the queue: every event present in the
queue when a dispatch round starts appears on the dispatch log — each
dispatched to the full current handler set for its kind, as `bucketTrace`
records — before any event emitted during that round (breadth-first,
level-order cascade). -/
theorem fifo_breadth_first_cascade (ps : PublishSubscribeService)
    (hok : (executeEvent ps).2 = none) :
    ∃ tail,
      (executeEvent ps).1.dispatchLog = ps.dispatchLog ++ (ps.eventQueue ++ tail) ∧
      (executeEvent ps).1.trace = ps.trace ++ bucketTrace ps.pool (ps.eventQueue ++ tail) := by
  rcases hpe : executeEvent ps with ⟨ps2, err⟩
  have herr : err = none := by rw [hpe] at hok; exact hok
  subst herr
  obtain ⟨-, -, -, tail, h1, h2⟩ := executeEvent_ok_spec ps ps2 hpe
  exact ⟨tail, h1, h2⟩

/-- Closed instance of `fifo_breadth_first_cascade`: the demo service given a
`Sale(8, "002")` event drains without error, dispatching the initial queue
first. -/
theorem fifo_breadth_first_cascade_witness :
    (executeEvent (addEvent demoService (.machineSale 8 "002"))).2 = none ∧
    ∃ tail,
      (executeEvent (addEvent demoService (.machineSale 8 "002"))).1.dispatchLog =
        (addEvent demoService (.machineSale 8 "002")).dispatchLog ++
          ((addEvent demoService (.machineSale 8 "002")).eventQueue ++ tail) ∧
      (executeEvent (addEvent demoService (.machineSale 8 "002"))).1.trace =
        (addEvent demoService (.machineSale 8 "002")).trace ++
          bucketTrace (addEvent demoService (.machineSale 8 "002")).pool
            ((addEvent demoService (.machineSale 8 "002")).eventQueue ++ tail) :=
  ⟨by decide, fifo_breadth_first_cascade _ (by decide)⟩

/-- C10: events still stored in the service queue (as left by a drain that a
handler fault aborted) are not discarded: the next `publish` call dispatches
them, in FIFO order and before the newly published event. -/
theorem leftover_queue_dispatched_first (ps : PublishSubscribeService) (e : IEvent)
    (hok : (publish ps e).2 = none) :
    ∃ tail, (publish ps e).1.dispatchLog =
      ps.dispatchLog ++ (ps.eventQueue ++ e :: tail) := by
  rcases hpe : publish ps e with ⟨ps2, err⟩
  have herr : err = none := by rw [hpe] at hok; exact hok
  subst herr
  obtain ⟨-, -, -, tail, h1, -⟩ := executeEvent_ok_spec (addEvent ps e) ps2 hpe
  refine ⟨tail, ?_⟩
  show ps2.dispatchLog = _
  rw [h1]
  simp [addEvent]

/-- Closed instance of `leftover_queue_dispatched_first`: a service carrying a
leftover `LowStockWarning` event delivers it ahead of a newly published
event. -/
theorem leftover_queue_dispatched_first_witness :
    (publish { demoService with eventQueue := [IEvent.lowStockWarning "001"] }
        (.stockLevelOk "002")).2 = none ∧
    ∃ tail,
      (publish { demoService with eventQueue := [IEvent.lowStockWarning "001"] }
          (.stockLevelOk "002")).1.dispatchLog =
        ({ demoService with eventQueue := [IEvent.lowStockWarning "001"] }
            : PublishSubscribeService).dispatchLog ++
          (({ demoService with eventQueue := [IEvent.lowStockWarning "001"] }
              : PublishSubscribeService).eventQueue ++ IEvent.stockLevelOk "002" :: tail) :=
  ⟨by decide, leftover_queue_dispatched_first _ _ (by decide)⟩

theorem subscribe_preserves_queue (ps : PublishSubscribeService) (t : EnumEvent)
    (h : Subscriber) : (subscribe ps t h).1.eventQueue = ps.eventQueue := by
  unfold subscribe
  split <;> rfl

theorem publish_ok_queue_empty (ps : PublishSubscribeService) (e : IEvent)
    (hok : (publish ps e).2 = none) : (publish ps e).1.eventQueue = [] := by
  rcases hpe : publish ps e with ⟨ps2, err⟩
  have herr : err = none := by rw [hpe] at hok; exact hok
  subst herr
  obtain ⟨-, -, hq, -⟩ := executeEvent_ok_spec (addEvent ps e) ps2 hpe
  exact hq

theorem pubsOk_append_left (ps : PublishSubscribeService) : ∀ (pre suf : List Op),
    pubsOk ps (pre ++ suf) = true → pubsOk ps pre = true := by
  intro pre
  induction pre generalizing ps with
  | nil => intro suf _; rfl
  | cons o rest ih =>
    intro suf h
    simp only [List.cons_append, pubsOk, Bool.and_eq_true] at h ⊢
    exact ⟨h.1, ih _ _ h.2⟩

theorem runOps_queue_empty : ∀ (ops : List Op) (ps : PublishSubscribeService),
    ps.eventQueue = [] → pubsOk ps ops = true → (runOps ps ops).eventQueue = [] := by
  intro ops
  induction ops with
  | nil => intro ps h _; exact h
  | cons o rest ih =>
    intro ps h hok
    simp only [pubsOk, Bool.and_eq_true] at hok
    simp only [runOps]
    apply ih _ ?_ hok.2
    cases o with
    | sub t hh =>
      show (subscribe ps t hh).1.eventQueue = []
      rw [subscribe_preserves_queue]
      exact h
    | unsub hh =>
      show (unsubscribe ps hh).eventQueue = []
      exact h
    | pub e =>
      have h1 : (publish ps e).2.isNone = true := hok.1
      exact publish_ok_queue_empty ps e (Option.isNone_iff_eq_none.mp h1)

/-- C6: the pending-event queue is empty between top-level `publish` calls:
for every sequence of subscribe/unsubscribe/publish operations from a fresh
service in which no publish throws, after any prefix of the sequence (i.e.
whenever no publish call is in progress) the queue is empty — each `publish`
fully drains the queue, cascades included, before returning. -/
theorem queue_empty_between_publishes (ms : List Machine) (ops pre suf : List Op)
    (hsplit : ops = pre ++ suf) (hok : pubsOk (init ms) ops = true) :
    (runOps (init ms) pre).eventQueue = [] := by
  subst hsplit
  exact runOps_queue_empty pre (init ms) rfl (pubsOk_append_left (init ms) pre suf hok)

/-- Closed instance of `queue_empty_between_publishes`: a subscribe followed by
two publishes, cut after the first publish, leaves an empty queue. -/
theorem queue_empty_between_publishes_witness :
    ([Op.sub .sale saleSubscriber, Op.pub (.machineSale 8 "002"), Op.pub (.machineSale 7 "003")] =
        [Op.sub .sale saleSubscriber, Op.pub (.machineSale 8 "002")] ++
          [Op.pub (.machineSale 7 "003")] ∧
      pubsOk (init demoMachines)
        [Op.sub .sale saleSubscriber, Op.pub (.machineSale 8 "002"),
          Op.pub (.machineSale 7 "003")] = true) ∧
    (runOps (init demoMachines)
        [Op.sub .sale saleSubscriber, Op.pub (.machineSale 8 "002")]).eventQueue = [] :=
  ⟨⟨rfl, by decide⟩,
    queue_empty_between_publishes demoMachines
      ([Op.sub .sale saleSubscriber, Op.pub (.machineSale 8 "002")] ++
        [Op.pub (.machineSale 7 "003")])
      [Op.sub .sale saleSubscriber, Op.pub (.machineSale 8 "002")]
      [Op.pub (.machineSale 7 "003")] rfl (by decide)⟩

theorem unsubscribe_pool (ps : PublishSubscribeService) (h : Subscriber) (k : EnumEvent) :
    (unsubscribe ps h).pool k = (ps.pool k).filter (fun s => decide (s ≠ h)) := rfl

/-- C5: `unsubscribe(handler)` removes the handler from every kind bucket it
is registered under, with handler identity (not kind) as the removal key; as
a consequence, when the refill bucket held only that handler and the service
is idle, publishing a `Refill` event after the unsubscribe leaves every
machine's `stockLevel` unchanged. -/
theorem unsubscribe_removes_from_every_bucket :
    (∀ (ps : PublishSubscribeService) (h : Subscriber) (k : EnumEvent),
        h ∉ (unsubscribe ps h).pool k) ∧
    (∀ (ps : PublishSubscribeService) (h : Subscriber) (q : Int) (mid : String),
        (∀ s ∈ ps.pool .refill, s = h) → ps.eventQueue = [] →
        (publish (unsubscribe ps h) (.machineRefill q mid)).1.machines = ps.machines) := by
  constructor
  · intro ps h k hmem
    rw [unsubscribe_pool, List.mem_filter] at hmem
    simp at hmem
  · intro ps h q mid hall hq
    have hb : (unsubscribe ps h).pool .refill = [] := by
      rw [unsubscribe_pool, List.filter_eq_nil_iff]
      intro a ha
      simp [hall a ha]
    have hq2 : (addEvent (unsubscribe ps h) (.machineRefill q mid)).eventQueue
        = [IEvent.machineRefill q mid] := by
      simp [addEvent, unsubscribe, hq]
    have hemp : ∀ x ∈ [IEvent.machineRefill q mid],
        (addEvent (unsubscribe ps h) (.machineRefill q mid)).pool x.type = [] := by
      intro x hx
      rw [List.mem_singleton] at hx
      subst hx
      exact hb
    have hfu := executeEventFuel_empty_buckets [IEvent.machineRefill q mid] 1 _ hq2 hemp
      (by simp)
    have heq := executeEvent_eq_of_fuel 1 _ _ hfu
    show (executeEvent (addEvent (unsubscribe ps h) (.machineRefill q mid))).1.machines
        = ps.machines
    rw [heq]
    rfl

/-- Closed instance of `unsubscribe_removes_from_every_bucket` on the demo
service and its refill subscriber. -/
theorem unsubscribe_removes_from_every_bucket_witness :
    refillSubscriber ∉ (unsubscribe demoService refillSubscriber).pool .refill ∧
    ((∀ s ∈ demoService.pool .refill, s = refillSubscriber) ∧
      demoService.eventQueue = []) ∧
    (publish (unsubscribe demoService refillSubscriber)
        (.machineRefill 5 "002")).1.machines = demoService.machines :=
  ⟨unsubscribe_removes_from_every_bucket.1 demoService refillSubscriber .refill,
    ⟨by decide, by decide⟩,
    unsubscribe_removes_from_every_bucket.2 demoService refillSubscriber 5 "002"
      (by decide) (by decide)⟩

/-- C8: the dispatch loop does not catch handler exceptions: whenever the
handler batch of the head event throws, the drain returns at once with that
error — the exception propagates out of the top-level `publish`, the events
still queued at that moment stay undelivered by this call, and machine
mutations already performed are kept, not rolled back. The second part
exhibits all of this on a scenario where a first sale has already lowered the
machine's stock before a negative-quantity sale throws, with a third event
left in the queue. -/
theorem handler_fault_fail_fast :
    (∀ (ps : PublishSubscribeService) (e : IEvent) (rest : List IEvent) (er : ErrMsg),
        ps.eventQueue = e :: rest → (dispatchStep ps e rest).2 = some er →
        executeEvent ps = ((dispatchStep ps e rest).1, some er)) ∧
    (∀ (sid : Nat) (mid : String) (s q1 : Int) (e3 : IEvent), 0 ≤ q1 → 3 ≤ s - q1 →
        executeEvent
            { pool := fun k => if k = .sale then [⟨sid, .machineSaleSubscriber⟩] else [],
              eventQueue := [.machineSale q1 mid, .machineSale (-1) mid, e3],
              machines := [⟨s, mid⟩], trace := [], dispatchLog := [] } =
          ({ pool := fun k => if k = .sale then [⟨sid, .machineSaleSubscriber⟩] else [],
             eventQueue := [e3], machines := [⟨s - q1, mid⟩],
             trace := [(⟨sid, .machineSaleSubscriber⟩, .machineSale q1 mid),
                       (⟨sid, .machineSaleSubscriber⟩, .machineSale (-1) mid)],
             dispatchLog := [.machineSale q1 mid, .machineSale (-1) mid] },
            some .saleAmountNegative) ∧
          (0 < q1 → s - q1 ≠ s)) := by
  constructor
  · intro ps e rest er hq her
    exact executeEvent_eq_of_fuel 1 ps _ (executeEventFuel_cons_err 0 ps e rest er hq her)
  · intro sid mid s q1 e3 hq1 hs
    refine ⟨?_, fun h0 => by omega⟩
    have hneg : ¬(q1 < 0) := by omega
    have hlt3 : ¬(s - q1 < 3) := by omega
    have h1 : Machine.sale ⟨s, mid⟩ q1 = .ok (false, ⟨s - q1, mid⟩) := by
      simp only [Machine.sale, hneg, if_false, max_eq_right (show (0:Int) ≤ s - q1 by omega)]
      rw [decide_eq_false hlt3, Bool.and_false]
    have h2 : Machine.sale ⟨s - q1, mid⟩ (-1) = .error .saleAmountNegative := by
      unfold Machine.sale
      rw [if_pos (by omega)]
    have hloop1 : saleHandleLoop q1 mid [⟨s, mid⟩] = ⟨[⟨s - q1, mid⟩], [], none⟩ := by
      simp [saleHandleLoop, h1]
    have hloop2 : saleHandleLoop (-1) mid [⟨s - q1, mid⟩] =
        ⟨[⟨s - q1, mid⟩], [], some ErrMsg.saleAmountNegative⟩ := by
      simp [saleHandleLoop, h2]
    have hd1 : dispatchToBucket (IEvent.machineSale q1 mid)
        [⟨sid, .machineSaleSubscriber⟩] [⟨s, mid⟩] =
        ⟨[⟨s - q1, mid⟩], [],
          [(⟨sid, .machineSaleSubscriber⟩, IEvent.machineSale q1 mid)], none⟩ := by
      rw [dispatchToBucket_single]
      simp only [Subscriber.handle]
      rw [hloop1]
    have hd2 : dispatchToBucket (IEvent.machineSale (-1) mid)
        [⟨sid, .machineSaleSubscriber⟩] [⟨s - q1, mid⟩] =
        ⟨[⟨s - q1, mid⟩], [],
          [(⟨sid, .machineSaleSubscriber⟩, IEvent.machineSale (-1) mid)],
          some ErrMsg.saleAmountNegative⟩ := by
      rw [dispatchToBucket_single]
      simp only [Subscriber.handle]
      rw [hloop2]
    have hstep1 : dispatchStep
        { pool := fun k => if k = .sale then [⟨sid, .machineSaleSubscriber⟩] else [],
          eventQueue := [.machineSale q1 mid, .machineSale (-1) mid, e3],
          machines := [⟨s, mid⟩], trace := [], dispatchLog := [] }
        (.machineSale q1 mid) [.machineSale (-1) mid, e3] =
        ({ pool := fun k => if k = .sale then [⟨sid, .machineSaleSubscriber⟩] else [],
           eventQueue := [.machineSale (-1) mid, e3], machines := [⟨s - q1, mid⟩],
           trace := [(⟨sid, .machineSaleSubscriber⟩, .machineSale q1 mid)],
           dispatchLog := [.machineSale q1 mid] }, none) := by
      unfold dispatchStep getCallbackPool
      simp [IEvent.type, hd1]
    have hstep2 : dispatchStep
        { pool := fun k => if k = .sale then [⟨sid, .machineSaleSubscriber⟩] else [],
          eventQueue := [.machineSale (-1) mid, e3], machines := [⟨s - q1, mid⟩],
          trace := [(⟨sid, .machineSaleSubscriber⟩, .machineSale q1 mid)],
          dispatchLog := [.machineSale q1 mid] }
        (.machineSale (-1) mid) [e3] =
        ({ pool := fun k => if k = .sale then [⟨sid, .machineSaleSubscriber⟩] else [],
           eventQueue := [e3], machines := [⟨s - q1, mid⟩],
           trace := [(⟨sid, .machineSaleSubscriber⟩, .machineSale q1 mid),
                     (⟨sid, .machineSaleSubscriber⟩, .machineSale (-1) mid)],
           dispatchLog := [.machineSale q1 mid, .machineSale (-1) mid] },
          some ErrMsg.saleAmountNegative) := by
      unfold dispatchStep getCallbackPool
      simp [IEvent.type, hd2]
    apply executeEvent_eq_of_fuel (1 + 1)
    rw [executeEventFuel_cons_ok 1 _ (.machineSale q1 mid) [.machineSale (-1) mid, e3] rfl
      (by rw [hstep1])]
    have hst1' := congrArg Prod.fst hstep1
    rw [hst1']
    have hfin := executeEventFuel_cons_err 0 _ (.machineSale (-1) mid) [e3]
      ErrMsg.saleAmountNegative rfl (by rw [hstep2])
    rw [congrArg Prod.fst hstep2] at hfin
    exact hfin

/-- Closed instance of `handler_fault_fail_fast` at stock 10, a sale of 5 and
then a sale of −1, with a `StockOk` event left queued. -/
theorem handler_fault_fail_fast_witness :
    ((0 : Int) ≤ 5 ∧ (3 : Int) ≤ 10 - 5) ∧
    (executeEvent
        { pool := fun k => if k = .sale then [⟨0, .machineSaleSubscriber⟩] else [],
          eventQueue := [.machineSale 5 "001", .machineSale (-1) "001",
            .stockLevelOk "001"],
          machines := [⟨10, "001"⟩], trace := [], dispatchLog := [] } =
      ({ pool := fun k => if k = .sale then [⟨0, .machineSaleSubscriber⟩] else [],
         eventQueue := [.stockLevelOk "001"], machines := [⟨10 - 5, "001"⟩],
         trace := [(⟨0, .machineSaleSubscriber⟩, .machineSale 5 "001"),
                   (⟨0, .machineSaleSubscriber⟩, .machineSale (-1) "001")],
         dispatchLog := [.machineSale 5 "001", .machineSale (-1) "001"] },
        some .saleAmountNegative) ∧
      ((0 : Int) < 5 → (10 : Int) - 5 ≠ 10)) :=
  ⟨⟨by decide, by decide⟩,
    handler_fault_fail_fast.2 0 "001" 10 5 (.stockLevelOk "001") (by decide) (by decide)⟩

theorem setAdd_mem (l : List Subscriber) (h : Subscriber) : h ∈ setAdd l h := by
  unfold setAdd
  split
  · assumption
  · simp

theorem setAdd_idem (l : List Subscriber) (h : Subscriber) :
    setAdd (setAdd l h) h = setAdd l h := if_pos (setAdd_mem l h)

theorem publish_single_bucket_trace (P : EnumEvent → List Subscriber) (h : Subscriber)
    (e : IEvent) (ms : List Machine) (hPe : P e.type = [h])
    (hemp : ∀ x ∈ (h.handle e ms).emitted, P x.type = []) :
    (publish
        { pool := P, eventQueue := [], machines := ms, trace := [], dispatchLog := [] }
        e).1.trace = [(h, e)] := by
  show (executeEvent
      { pool := P, eventQueue := [e], machines := ms, trace := [], dispatchLog := [] }
      ).1.trace = [(h, e)]
  have hd := dispatchToBucket_single h e ms
  rcases her : (h.handle e ms).err with _ | er
  · have hstep : dispatchStep
        { pool := P, eventQueue := [e], machines := ms, trace := [], dispatchLog := [] }
        e [] =
        (
          { pool := P,
            eventQueue := (h.handle e ms).emitted,
            machines := (h.handle e ms).machines,
            trace := [(h, e)],
            dispatchLog := [e] },
          none) := by
      simp [dispatchStep, getCallbackPool, hPe, hd, her]
    have hemlen := (handle_spec h e ms).1.2
    have hrun2 := executeEventFuel_empty_buckets (h.handle e ms).emitted ms.length
      { pool := P,
        eventQueue := (h.handle e ms).emitted,
        machines := (h.handle e ms).machines,
        trace := [(h, e)],
        dispatchLog := [e] }
      rfl (fun x hx => hemp x hx) hemlen
    have hchain : executeEventFuel (ms.length + 1)
        { pool := P, eventQueue := [e], machines := ms, trace := [], dispatchLog := [] } =
        some (
          { pool := P,
            eventQueue := [],
            machines := (h.handle e ms).machines,
            trace := [(h, e)],
            dispatchLog := [e] ++ (h.handle e ms).emitted },
          none) := by
      rw [executeEventFuel_cons_ok ms.length _ e [] rfl (by rw [hstep]),
        congrArg Prod.fst hstep, hrun2]
    rw [executeEvent_eq_of_fuel (ms.length + 1) _ _ hchain]
  · have hstep : dispatchStep
        { pool := P, eventQueue := [e], machines := ms, trace := [], dispatchLog := [] }
        e [] =
        (
          { pool := P,
            eventQueue := (h.handle e ms).emitted,
            machines := (h.handle e ms).machines,
            trace := [(h, e)],
            dispatchLog := [e] },
          some er) := by
      simp [dispatchStep, getCallbackPool, hPe, hd, her]
    rw [executeEvent_eq_of_fuel (0 + 1) _ _
      (executeEventFuel_cons_err 0 _ e [] er rfl (by rw [hstep]))]
    rw [congrArg Prod.fst hstep]

/-- C4: subscription is idempotent per (kind, handler) pair: a second
`subscribe` of the same handler for the same kind leaves the service state
unchanged (the registry bucket is a `Set`), and publishing one event of that
kind on a fresh service that registered the handler twice invokes the
handler's `handle` exactly once for that event, not twice. -/
theorem subscribe_idempotent :
    (∀ (ps : PublishSubscribeService) (t : EnumEvent) (h : Subscriber),
        (subscribe (subscribe ps t h).1 t h).1 = (subscribe ps t h).1) ∧
    (∀ (ms : List Machine) (t : EnumEvent) (h : Subscriber) (e : IEvent),
        h.cls = requiredClass t → e.type = t →
        (publish (subscribe (subscribe (init ms) t h).1 t h).1 e).1.trace.count (h, e)
          = 1) := by
  have hidem : ∀ (ps : PublishSubscribeService) (t : EnumEvent) (h : Subscriber),
      (subscribe (subscribe ps t h).1 t h).1 = (subscribe ps t h).1 := by
    intro ps t h
    by_cases hc : h.cls = requiredClass t
    · simp only [subscribe, hc, if_true]
      congr 1
      funext k
      by_cases hk : k = t
      · subst hk
        simp [setAdd_idem]
      · simp [hk]
    · simp only [subscribe, hc, if_false]
  refine ⟨hidem, ?_⟩
  intro ms t h e hc ht
  rw [hidem]
  have hsub : (subscribe (init ms) t h).1 =
      { pool := fun k => if k = t then [h] else [], eventQueue := [], machines := ms,
          trace := [], dispatchLog := [] } := by
    simp only [subscribe, hc, if_true, init]
    congr 1
  rw [hsub]
  have hPe : (fun k => if k = t then [h] else ([] : List Subscriber)) e.type = [h] := by
    simp [ht]
  have hemp : ∀ x ∈ (h.handle e ms).emitted,
      (fun k => if k = t then [h] else ([] : List Subscriber)) x.type = [] := by
    cases t with
    | sale =>
      intro x hx
      rcases (handle_spec h e ms).2 x hx with hxt | hxt <;> simp [hxt]
    | refill =>
      intro x hx
      rcases (handle_spec h e ms).2 x hx with hxt | hxt <;> simp [hxt]
    | stock_low =>
      intro x hx
      rw [handle_no_emit h e ms (Or.inl ht)] at hx
      simp at hx
    | stock_ok =>
      intro x hx
      rw [handle_no_emit h e ms (Or.inr ht)] at hx
      simp at hx
  rw [publish_single_bucket_trace (fun k => if k = t then [h] else []) h e ms hPe hemp]
  simp [List.count_cons]

/-- Closed instance of `subscribe_idempotent`: double-subscribing the demo
sale subscriber and publishing `Sale(8, "002")` on a fresh service invokes it
exactly once for that event. -/
theorem subscribe_idempotent_witness :
    (subscribe (subscribe demoService .sale saleSubscriber).1 .sale saleSubscriber).1 =
      (subscribe demoService .sale saleSubscriber).1 ∧
    (saleSubscriber.cls = requiredClass .sale ∧
      (IEvent.machineSale 8 "002").type = .sale) ∧
    (publish (subscribe (subscribe (init demoMachines) .sale saleSubscriber).1
          .sale saleSubscriber).1 (.machineSale 8 "002")).1.trace.count
        (saleSubscriber, .machineSale 8 "002") = 1 :=
  ⟨subscribe_idempotent.1 demoService .sale saleSubscriber,
    ⟨by decide, by decide⟩,
    subscribe_idempotent.2 demoMachines .sale saleSubscriber (.machineSale 8 "002")
      (by decide) (by decide)⟩

end PublishSubscribeService

/-- The `src/app.ts` `soldStock` variant is level-triggered, not
edge-triggered: a sale of 0 on a machine already flagged low reports low
stock again, where the canonical `Machine.sale` of `src/unnamed/part_000`
returns `false`. The spec canonicalizes the edge-triggered behaviour. -/
theorem appVariant_soldStock_level_triggered :
    AppVariant.Machine.soldStock ⟨2, "002", true⟩ 0 = .ok (true, ⟨2, "002", true⟩) := by
  rfl

/-- The `src/app.ts` `refillStock` variant tests `stockLevel > 3` strictly: a
refill from 2 to exactly 3 reports `false`, where the canonical
`Machine.refill` of `src/unnamed/part_000` (inclusive `>= 3` threshold)
reports `true`. -/
theorem appVariant_refillStock_strict_threshold :
    AppVariant.Machine.refillStock ⟨2, "002", true⟩ 1 = .ok (false, ⟨3, "002", false⟩) := by
  rfl
